import Mathlib

/-!
Verification of the comfyui-sdk job scheduler, execution correlator and
workflow bypass transformer.  Each definition is a shallow embedding of the
corresponding TypeScript function; theorems check the specification's claims
against these definitions.
-/

/-! ## Weighted job queue (ComfyPool.pushJobByWeight, ComfyPool.claim) -/

/-- A pending job in the pool's weighted queue.  `jid` identifies the job
(submission order in examples), `weight` is the JS `weight` field. -/
structure JobItem where
  jid : Nat
  weight : Int
deriving DecidableEq, Repr

/-- Embedding of `ComfyPool.pushJobByWeight`: `findIndex(job => job.weight >
item.weight)` scans for the first entry with strictly greater weight; the item
is spliced in before it, otherwise appended. -/
def pushJobByWeight (q : List JobItem) (item : JobItem) : List JobItem :=
  match q with
  | [] => [item]
  | j :: rest =>
    if item.weight < j.weight then item :: j :: rest
    else j :: pushJobByWeight rest item

/-- The queue ordering: ascending weight. -/
def jobWle (a b : JobItem) : Prop := a.weight ≤ b.weight

instance : DecidableRel jobWle := fun a b => by
  unfold jobWle; infer_instance

/-- `pushJobByWeight` splits the queue at the first strictly-greater entry:
the item lands after every entry of weight `≤ item.weight` (stability) and
before the rest. -/
theorem pushJobByWeight_eq_takeWhile (q : List JobItem) (item : JobItem) :
    pushJobByWeight q item
      = q.takeWhile (fun j => j.weight ≤ item.weight)
          ++ item :: q.dropWhile (fun j => j.weight ≤ item.weight) := by
  induction q with
  | nil => rfl
  | cons j rest ih =>
    by_cases h : item.weight < j.weight
    · have hb : (decide (j.weight ≤ item.weight)) = false := by
        simpa using h
      simp [pushJobByWeight, h, List.takeWhile_cons, List.dropWhile_cons, hb]
    · have hle : j.weight ≤ item.weight := not_lt.mp h
      have hb : (decide (j.weight ≤ item.weight)) = true := by
        simp [hle]
      simp [pushJobByWeight, h, List.takeWhile_cons, List.dropWhile_cons, hb, ih]

/-- Membership in the queue after an insert. -/
theorem mem_pushJobByWeight {q : List JobItem} {item x : JobItem} :
    x ∈ pushJobByWeight q item ↔ x ∈ q ∨ x = item := by
  rw [pushJobByWeight_eq_takeWhile]
  constructor
  · intro hx
    rcases List.mem_append.mp hx with h | h
    · exact Or.inl (by
        have := List.takeWhile_sublist (l := q)
          (p := fun j => j.weight ≤ item.weight)
        exact this.mem h)
    · rcases List.mem_cons.mp h with h | h
      · exact Or.inr h
      · exact Or.inl (by
          have := List.dropWhile_sublist (l := q)
            (p := fun j => j.weight ≤ item.weight)
          exact this.mem h)
  · intro hx
    rcases hx with h | h
    · have hsplit := List.takeWhile_append_dropWhile
        (p := fun j => j.weight ≤ item.weight) (l := q)
      rw [← hsplit] at h
      rcases List.mem_append.mp h with h | h
      · exact List.mem_append.mpr (Or.inl h)
      · exact List.mem_append.mpr (Or.inr (List.mem_cons_of_mem _ h))
    · exact List.mem_append.mpr (Or.inr (h ▸ List.mem_cons_self _ _))

/-- Inserting keeps the queue sorted ascending by weight. -/
theorem sorted_pushJobByWeight {q : List JobItem} (item : JobItem)
    (hs : List.Sorted jobWle q) :
    List.Sorted jobWle (pushJobByWeight q item) := by
  induction q with
  | nil => simp [pushJobByWeight, List.sorted_singleton]
  | cons j rest ih =>
    rw [List.sorted_cons] at hs
    obtain ⟨hj, hrest⟩ := hs
    by_cases h : item.weight < j.weight
    · rw [pushJobByWeight]
      simp only [if_pos h]
      rw [List.sorted_cons]
      refine ⟨?_, (List.sorted_cons).mpr ⟨hj, hrest⟩⟩
      intro b hb
      rcases List.mem_cons.mp hb with hb | hb
      · exact hb ▸ le_of_lt h
      · exact le_trans (le_of_lt h) (hj b hb)
    · rw [pushJobByWeight]
      simp only [if_neg h]
      rw [List.sorted_cons]
      refine ⟨?_, ih hrest⟩
      intro b hb
      rcases mem_pushJobByWeight.mp hb with hb | hb
      · exact hj b hb
      · exact hb ▸ not_lt.mp h

/-- Enqueue a list of explicit weights (jid = submission index) into an empty
queue, as four consecutive `claim` calls would. -/
def submitWeights (ws : List Int) : List JobItem :=
  (ws.enum.map (fun p => JobItem.mk p.1 p.2)).foldl pushJobByWeight []

/-- Claim C2: the pending job queue is kept sorted ascending by weight with
equal-weight jobs in arrival order: insertion scans for the first entry with
strictly greater weight and inserts before it, otherwise appends; submitting
weights [5,1,5,3] dispatches them in the order 1, 3, 5(first), 5(second). -/
theorem c2_weighted_queue_order :
    (∀ (q : List JobItem) (item : JobItem),
        pushJobByWeight q item
          = q.takeWhile (fun j => j.weight ≤ item.weight)
              ++ item :: q.dropWhile (fun j => j.weight ≤ item.weight)) ∧
    (∀ (q : List JobItem) (item : JobItem),
        List.Sorted jobWle q → List.Sorted jobWle (pushJobByWeight q item)) ∧
    (submitWeights [5, 1, 5, 3]).map (fun j => j.jid) = [1, 3, 0, 2] := by
  refine ⟨pushJobByWeight_eq_takeWhile, ?_, by decide⟩
  intro q item hs
  exact sorted_pushJobByWeight item hs

/-- Witness for C2's sortedness hypothesis at a concrete queue. -/
theorem c2_weighted_queue_order_witness :
    List.Sorted jobWle [JobItem.mk 0 1, JobItem.mk 1 4]
      ∧ List.Sorted jobWle
          (pushJobByWeight [JobItem.mk 0 1, JobItem.mk 1 4] (JobItem.mk 2 2)) :=
  ⟨by decide, c2_weighted_queue_order.2.1 _ _ (by decide)⟩

/-! ## Pool queue operations (ComfyPool.claim / ComfyPool.pickJob) -/

/-- One scheduler-queue operation: `enq` is a `claim` call (`none` weight =
the caller omitted it), `deq` is `pickJob` shifting the queue head for
dispatch. -/
inductive PoolOp
  | enq (jid : Nat) (w : Option Int)
  | deq
deriving DecidableEq, Repr

/-- The pool's pending queue together with the jobs dispatched so far, in
dispatch order. -/
structure PoolState where
  queue : List JobItem
  dispatched : List Nat
deriving DecidableEq, Repr

/-- Embedding of one queue operation.  `claim` computes
`weight === undefined ? this.jobQueue.length : weight` and calls
`pushJobByWeight`; `pickJob` shifts the head of the queue. -/
def poolStep (s : PoolState) (op : PoolOp) : PoolState :=
  match op with
  | .enq jid w =>
    { s with queue := pushJobByWeight s.queue ⟨jid, w.getD (s.queue.length : Int)⟩ }
  | .deq =>
    match s.queue with
    | [] => s
    | j :: rest => { queue := rest, dispatched := s.dispatched ++ [j.jid] }

/-- Run a sequence of queue operations from the empty pool. -/
def runPool (ops : List PoolOp) : PoolState :=
  ops.foldl poolStep ⟨[], []⟩

/-- The ids of the jobs enqueued by an operation sequence, in order. -/
def enqJids : List PoolOp → List Nat
  | [] => []
  | .enq jid _ :: rest => jid :: enqJids rest
  | .deq :: rest => enqJids rest

/-- All job ids present in a state: dispatched first, then the queue. -/
def allIds (s : PoolState) : List Nat :=
  s.dispatched ++ s.queue.map (fun j => j.jid)

theorem length_pushJobByWeight (q : List JobItem) (item : JobItem) :
    (pushJobByWeight q item).length = q.length + 1 := by
  rw [pushJobByWeight_eq_takeWhile]
  have hsplit : (q.takeWhile (fun j => j.weight ≤ item.weight)).length
      + (q.dropWhile (fun j => j.weight ≤ item.weight)).length = q.length := by
    rw [← List.length_append, List.takeWhile_append_dropWhile]
  simp only [List.length_append, List.length_cons]
  omega

theorem map_jid_perm_pushJobByWeight (q : List JobItem) (item : JobItem) :
    ((pushJobByWeight q item).map (fun j => j.jid)).Perm
      (q.map (fun j => j.jid) ++ [item.jid]) := by
  rw [pushJobByWeight_eq_takeWhile, List.map_append, List.map_cons]
  refine List.Perm.trans List.perm_middle ?_
  refine List.Perm.trans ?_ ((List.perm_append_singleton _ _).symm)
  rw [← List.map_append, List.takeWhile_append_dropWhile]

theorem map_jid_sublist_pushJobByWeight (q : List JobItem) (item : JobItem) :
    (q.map (fun j => j.jid)).Sublist
      ((pushJobByWeight q item).map (fun j => j.jid)) := by
  rw [pushJobByWeight_eq_takeWhile, List.map_append, List.map_cons]
  conv_lhs => rw [← List.takeWhile_append_dropWhile
    (p := fun j => j.weight ≤ item.weight) (l := q), List.map_append]
  exact List.Sublist.append_left (List.sublist_cons_self _ _) _

theorem allIds_poolStep_sublist (s : PoolState) (op : PoolOp) :
    (allIds s).Sublist (allIds (poolStep s op)) := by
  cases op with
  | enq jid w =>
    simp only [poolStep, allIds]
    exact List.Sublist.append_left (map_jid_sublist_pushJobByWeight _ _) _
  | deq =>
    cases hq : s.queue with
    | nil => simp [poolStep, allIds, hq]
    | cons j rest => simp [poolStep, allIds, hq, List.append_assoc]

theorem allIds_foldl_sublist (ops : List PoolOp) (s : PoolState) :
    (allIds s).Sublist (allIds (ops.foldl poolStep s)) := by
  induction ops generalizing s with
  | nil => exact List.Sublist.refl _
  | cons op rest ih =>
    exact (allIds_poolStep_sublist s op).trans (ih (poolStep s op))

theorem allIds_poolStep_perm (s : PoolState) (op : PoolOp) :
    (allIds (poolStep s op)).Perm (allIds s ++ enqJids [op]) := by
  cases op with
  | enq jid w =>
    simp only [poolStep, allIds, enqJids]
    rw [List.append_assoc]
    exact List.Perm.append_left _ (map_jid_perm_pushJobByWeight _ _)
  | deq =>
    cases hq : s.queue with
    | nil => simp [poolStep, allIds, hq, enqJids]
    | cons j rest => simp [poolStep, allIds, hq, enqJids, List.append_assoc]

theorem allIds_foldl_perm (ops : List PoolOp) (s : PoolState) :
    (allIds (ops.foldl poolStep s)).Perm (allIds s ++ enqJids ops) := by
  induction ops generalizing s with
  | nil => simp [enqJids]
  | cons op rest ih =>
    have hcons : enqJids (op :: rest) = enqJids [op] ++ enqJids rest := by
      cases op <;> simp [enqJids]
    have h1 : (allIds ((op :: rest).foldl poolStep s)).Perm
        (allIds (poolStep s op) ++ enqJids rest) := ih (poolStep s op)
    have h2 : (allIds (poolStep s op) ++ enqJids rest).Perm
        ((allIds s ++ enqJids [op]) ++ enqJids rest) :=
      (allIds_poolStep_perm s op).append_right _
    have h3 : (allIds s ++ enqJids [op]) ++ enqJids rest
        = allIds s ++ enqJids (op :: rest) := by
      rw [List.append_assoc, hcons]
    exact (h1.trans h2).trans (h3 ▸ List.Perm.refl _)

theorem sorted_poolStep {s : PoolState} (op : PoolOp)
    (hs : List.Sorted jobWle s.queue) :
    List.Sorted jobWle (poolStep s op).queue := by
  cases op with
  | enq jid w => exact sorted_pushJobByWeight _ hs
  | deq =>
    cases hq : s.queue with
    | nil => simp [poolStep, hq]
    | cons j rest =>
      rw [hq] at hs
      simpa [poolStep, hq] using (List.sorted_cons.mp hs).2

theorem sorted_foldl_poolStep (ops : List PoolOp) (s : PoolState)
    (hs : List.Sorted jobWle s.queue) :
    List.Sorted jobWle ((ops.foldl poolStep s).queue) := by
  induction ops generalizing s with
  | nil => exact hs
  | cons op rest ih => exact ih _ (sorted_poolStep op hs)

/-- Inserting a strictly heavier item places it after a lighter item already
in a sorted queue. -/
theorem before_jid_pushJobByWeight {q : List JobItem} {x item : JobItem}
    (hs : List.Sorted jobWle q) (hx : x ∈ q) (hw : x.weight < item.weight) :
    [x.jid, item.jid].Sublist ((pushJobByWeight q item).map (fun j => j.jid)) := by
  induction q with
  | nil => cases hx
  | cons j rest ih =>
    rw [List.sorted_cons] at hs
    obtain ⟨hj, hrest⟩ := hs
    by_cases h : item.weight < j.weight
    · exfalso
      rcases List.mem_cons.mp hx with rfl | hx'
      · exact absurd (hw.trans h) (lt_irrefl _)
      · have hle : j.weight ≤ x.weight := hj x hx'
        exact absurd ((lt_of_le_of_lt hle hw).trans h) (lt_irrefl _)
    · rw [pushJobByWeight]
      simp only [if_neg h, List.map_cons]
      rcases List.mem_cons.mp hx with rfl | hx'
      · refine List.Sublist.cons₂ _ ?_
        have hmem : item ∈ pushJobByWeight rest item :=
          mem_pushJobByWeight.mpr (Or.inr rfl)
        exact List.singleton_sublist.mpr (List.mem_map.mpr ⟨item, hmem, rfl⟩)
      · exact List.Sublist.cons _ (ih hrest hx')

/-- In a duplicate-free split list, a two-element sublist whose second element
lies in the left part lies entirely in the left part. -/
theorem sublist_pair_left {d r : List Nat} {x y : Nat}
    (hnd : (d ++ r).Nodup) (h : [x, y].Sublist (d ++ r)) (hy : y ∈ d) :
    [x, y].Sublist d := by
  induction d with
  | nil => cases hy
  | cons a d' ih =>
    rw [List.cons_append] at h hnd
    cases h with
    | cons _ h' =>
      rcases List.mem_cons.mp hy with rfl | hy'
      · exact absurd (h'.subset (List.mem_cons_of_mem _ (List.mem_cons_self _ _)))
          (List.nodup_cons.mp hnd).1
      · exact List.Sublist.cons _ (ih (List.nodup_cons.mp hnd).2 h' hy')
    | cons₂ _ h' =>
      have hyr : y ∈ d' ++ r := List.singleton_sublist.mp h'
      rcases List.mem_cons.mp hy with rfl | hy'
      · exact absurd hyr (List.nodup_cons.mp hnd).1
      · exact List.Sublist.cons₂ _ (List.singleton_sublist.mpr hy')

/-- A job stays in the queue, and its weight stays below the queue length,
across enqueue-only operation runs. -/
theorem enq_only_invariant (ops : List PoolOp)
    (hops : ∀ op ∈ ops, op ≠ PoolOp.deq) (s : PoolState) (x : JobItem)
    (hx : x ∈ s.queue) (hw : x.weight < (s.queue.length : Int)) :
    x ∈ (ops.foldl poolStep s).queue
      ∧ x.weight < (((ops.foldl poolStep s).queue.length : Int)) := by
  induction ops generalizing s with
  | nil => exact ⟨hx, hw⟩
  | cons op rest ih =>
    have hop : op ≠ PoolOp.deq := hops op (List.mem_cons_self _ _)
    cases op with
    | deq => exact absurd rfl hop
    | enq jid w =>
      refine ih (fun o ho => hops o (List.mem_cons_of_mem _ ho))
        (poolStep s (.enq jid w)) ?_ ?_
      · exact mem_pushJobByWeight.mpr (Or.inl hx)
      · show x.weight < (((pushJobByWeight s.queue _).length : Nat) : Int)
        rw [length_pushJobByWeight]
        push_cast
        omega

/-- The counterexample operation sequence for C9: jobs 2 and 3 are both
submitted without a weight, 2 before 3, with two dispatches in between. -/
def c9ops : List PoolOp :=
  [PoolOp.enq 0 none, PoolOp.enq 1 none, PoolOp.enq 2 none,
   PoolOp.deq, PoolOp.deq, PoolOp.enq 3 none, PoolOp.deq, PoolOp.deq]

/-- Counterexample to claim C9 as stated: jobs 2 and 3 are both submitted
without an explicit weight and 2 is submitted first, yet 3 is dispatched
before 2 (dispatch order 0, 1, 3, 2), because two dispatches between the
submissions shrank the queue and gave 3 a smaller default weight. -/
theorem c9_counterexample :
    (runPool c9ops).dispatched = [0, 1, 3, 2]
      ∧ ¬ [2, 3].Sublist (runPool c9ops).dispatched := by
  constructor
  · decide
  · decide

/-- Claim C9 (amended): a job submitted without a weight gets weight equal to
the pending-queue length at enqueue time; and two such jobs with no dispatch
between their submissions are dispatched in submission order.  (With an
intervening dispatch the later job can overtake, see the counterexample.) -/
theorem c9_default_weight_fifo :
    (∀ (s : PoolState) (jid : Nat),
        poolStep s (PoolOp.enq jid none)
          = { s with queue := pushJobByWeight s.queue (JobItem.mk jid (s.queue.length : Int)) }) ∧
    (∀ (pre mid post : List PoolOp) (x y : Nat),
        (∀ op ∈ mid, op ≠ PoolOp.deq) →
        (enqJids (pre ++ PoolOp.enq x none :: (mid ++ PoolOp.enq y none :: post))).Nodup →
        y ∈ (runPool (pre ++ PoolOp.enq x none :: (mid ++ PoolOp.enq y none :: post))).dispatched →
        [x, y].Sublist
          (runPool (pre ++ PoolOp.enq x none :: (mid ++ PoolOp.enq y none :: post))).dispatched) := by
  constructor
  · intro s jid
    rfl
  · intro pre mid post x y hmid hnodup hy
    set ops := pre ++ PoolOp.enq x none :: (mid ++ PoolOp.enq y none :: post) with hops
    set s0 := pre.foldl poolStep (⟨[], []⟩ : PoolState) with hs0
    set s1 := poolStep s0 (PoolOp.enq x none) with hs1
    set s2 := mid.foldl poolStep s1 with hs2
    set s3 := poolStep s2 (PoolOp.enq y none) with hs3
    have hrun : runPool ops = post.foldl poolStep s3 := by
      rw [hops, runPool, List.foldl_append, List.foldl_cons, List.foldl_append,
        List.foldl_cons]
    set itemX : JobItem := ⟨x, (s0.queue.length : Int)⟩ with hitemX
    have hqueue1 : s1.queue = pushJobByWeight s0.queue itemX := rfl
    have hx1 : itemX ∈ s1.queue := by
      rw [hqueue1]
      exact mem_pushJobByWeight.mpr (Or.inr rfl)
    have hw1 : itemX.weight < (s1.queue.length : Int) := by
      rw [hqueue1, length_pushJobByWeight]
      show ((s0.queue.length : Nat) : Int) < (((s0.queue.length + 1 : Nat)) : Int)
      push_cast
      omega
    have hinv := enq_only_invariant mid hmid s1 itemX hx1 hw1
    rw [← hs2] at hinv
    obtain ⟨hx2, hw2⟩ := hinv
    have hsorted0 : List.Sorted jobWle s0.queue :=
      sorted_foldl_poolStep pre ⟨[], []⟩ (by simp)
    have hsorted1 : List.Sorted jobWle s1.queue :=
      sorted_poolStep _ hsorted0
    have hsorted2 : List.Sorted jobWle s2.queue :=
      sorted_foldl_poolStep mid s1 hsorted1
    set itemY : JobItem := ⟨y, (s2.queue.length : Int)⟩ with hitemY
    have hqueue3 : s3.queue = pushJobByWeight s2.queue itemY := rfl
    have hbefore : [x, y].Sublist (s3.queue.map (fun j => j.jid)) := by
      rw [hqueue3]
      exact before_jid_pushJobByWeight hsorted2 hx2
        (show itemX.weight < itemY.weight from hw2)
    have hall3 : [x, y].Sublist (allIds s3) :=
      hbefore.trans (List.sublist_append_right _ _)
    have hallF : [x, y].Sublist (allIds (post.foldl poolStep s3)) :=
      hall3.trans (allIds_foldl_sublist post s3)
    have hperm : (allIds (runPool ops)).Perm (enqJids ops) := by
      have := allIds_foldl_perm ops ⟨[], []⟩
      simpa [runPool, allIds] using this
    have hnodupAll : (allIds (runPool ops)).Nodup :=
      (hperm.nodup_iff).mpr hnodup
    rw [hrun] at hnodupAll ⊢
    rw [hrun] at hy
    exact sublist_pair_left hnodupAll hallF hy

/-- Witness for C9 (amended): two weightless submissions with no dispatch in
between are dispatched in submission order. -/
theorem c9_default_weight_fifo_witness :
    [0, 1].Sublist
      (runPool ([] ++ PoolOp.enq 0 none :: ([] ++ PoolOp.enq 1 none ::
        [PoolOp.deq, PoolOp.deq]))).dispatched :=
  c9_default_weight_fifo.2 [] [] [PoolOp.deq, PoolOp.deq] 0 1
    (by intro op hop; cases hop) (by decide) (by decide)

/-! ## Client selection (ComfyPool.getAvailableClient, both revisions) -/

/-- The pool's client-picking mode. -/
inductive EQueueMode
  | PICK_ZERO
  | PICK_LOWEST
  | PICK_ROUTINE
deriving DecidableEq, Repr

/-- The per-client state tracked by the pool. -/
structure ClientState where
  id : String
  queueRemaining : Nat
  locked : Bool
  online : Bool
deriving DecidableEq, Repr

/-- JS `Number.MAX_SAFE_INTEGER`, used as the queue size of offline clients
in the PICK_LOWEST branch. -/
def maxSafeInteger : Nat := 9007199254740991

/-- Embedding of `Array.prototype.findIndex` (`none` for -1). -/
def findIdxA (p : α → Bool) : List α → Option Nat
  | [] => none
  | a :: l => if p a then some 0 else (findIdxA p l).map (· + 1)

/-- Embedding of `Array.prototype.indexOf` (`none` for -1). -/
def idxOfA (v : Nat) (l : List Nat) : Option Nat :=
  findIdxA (fun x => x == v) l

/-- Embedding of `Math.min(...sizes)` (`none` for the empty spread, where JS
yields `Infinity`). -/
def listMin : List Nat → Option Nat
  | [] => none
  | a :: rest =>
    match listMin rest with
    | some m => some (min a m)
    | none => some a

/-- `queueSizes.indexOf(Math.min(...queueSizes))`. -/
def selectLowestIdx (sizes : List Nat) : Option Nat :=
  match listMin sizes with
  | none => none
  | some m => idxOfA m sizes

/-- The eligibility filter of the current `getAvailableClient`: offline
clients are dropped; a non-empty `includeIds` whitelists, otherwise a
non-empty `excludeIds` blacklists. -/
def clientFilterPred (inc exc : Option (List String)) (c : ClientState) : Bool :=
  if !c.online then false
  else if (inc.getD []).length > 0 then (inc.getD []).contains c.id
  else if (exc.getD []).length > 0 then !((exc.getD []).contains c.id)
  else true

/-- The mode-dependent `switch` of the current `getAvailableClient`, run over
the accepted (filtered) client list. -/
def selectIdx (mode : EQueueMode) (routineIdx : Nat)
    (accepted : List ClientState) : Option Nat :=
  match mode with
  | .PICK_ZERO =>
    findIdxA (fun c => c.queueRemaining == 0 && !c.locked && c.id != "") accepted
  | .PICK_LOWEST =>
    selectLowestIdx
      (accepted.map (fun s => if s.online then s.queueRemaining else maxSafeInteger))
  | .PICK_ROUTINE =>
    if accepted.length = 0 then none else some (routineIdx % accepted.length)

/-- One iteration of the current (event-target pool) `getAvailableClient`
search loop: computes the accepted set, the mode-dependent index within it,
and returns the picked client (which the caller then locks), or `none` when
this iteration finds nothing and the loop delays and retries. -/
def getAvailableClientPick (mode : EQueueMode) (routineIdx : Nat)
    (states : List ClientState) (inc exc : Option (List String)) :
    Option ClientState :=
  match selectIdx mode routineIdx (states.filter (clientFilterPred inc exc)) with
  | none => none
  | some i => (states.filter (clientFilterPred inc exc))[i]?

/-- The mode-dependent index of the older (`pool.ts`) `getAvailableClient`,
which searches `clientStates` directly. -/
def selectIdxTs (mode : EQueueMode) (routineIdx : Nat)
    (states : List ClientState) : Option Nat :=
  match mode with
  | .PICK_ZERO =>
    findIdxA (fun c => c.queueRemaining == 0 && !c.locked && c.online) states
  | .PICK_LOWEST =>
    selectLowestIdx
      (states.map (fun s => if s.online then s.queueRemaining else maxSafeInteger))
  | .PICK_ROUTINE =>
    if states.length = 0 then none
    else
      let i := routineIdx % states.length
      match states[i]? with
      | some c => if c.online then some i else none
      | none => none

/-- One iteration of the `pool.ts` `getAvailableClient` loop: the pick is
guarded by `index !== -1 && !this.clientStates[index].locked`. -/
def getAvailableClientPickTs (mode : EQueueMode) (routineIdx : Nat)
    (states : List ClientState) : Option ClientState :=
  match selectIdxTs mode routineIdx states with
  | none => none
  | some i =>
    match states[i]? with
    | some c => if !c.locked then some c else none
    | none => none

theorem findIdxA_getElem {p : α → Bool} :
    ∀ {l : List α} {i : Nat} {c : α},
      findIdxA p l = some i → l[i]? = some c → p c = true := by
  intro l
  induction l with
  | nil => intro i c h _; simp [findIdxA] at h
  | cons a t ih =>
    intro i c h hg
    by_cases hp : p a
    · simp [findIdxA, hp] at h
      subst h
      simp at hg
      subst hg
      exact hp
    · simp [findIdxA, hp] at h
      obtain ⟨j, hj, hi⟩ := h
      subst hi
      simp at hg
      exact ih hj hg

theorem clientFilterPred_online {inc exc : Option (List String)}
    {c : ClientState} (h : clientFilterPred inc exc c = true) :
    c.online = true := by
  cases honline : c.online with
  | true => rfl
  | false => simp [clientFilterPred, honline] at h

/-- Counterexample to claim C3 as stated: under PICK_LOWEST the current
`getAvailableClient` never consults the `locked` flag, so a single online but
locked client is selected while `locked = true`. -/
theorem c3_counterexample :
    getAvailableClientPick EQueueMode.PICK_LOWEST 0
        [ClientState.mk "a" 0 true true] none none
      = some (ClientState.mk "a" 0 true true)
      ∧ (ClientState.mk "a" 0 true true).locked = true := by
  exact ⟨rfl, rfl⟩

/-- Claim C3 (amended): a client returned by the current
`getAvailableClient` is always online (an offline client is never selected);
`locked = false` (and zero queue) is additionally guaranteed under PICK_ZERO
only.  In the older `pool.ts` revision the returned client is never locked,
under any mode. -/
theorem c3_selected_client_state :
    (∀ (mode : EQueueMode) (r : Nat) (states : List ClientState)
        (inc exc : Option (List String)) (c : ClientState),
        getAvailableClientPick mode r states inc exc = some c →
          c.online = true) ∧
    (∀ (r : Nat) (states : List ClientState) (inc exc : Option (List String))
        (c : ClientState),
        getAvailableClientPick EQueueMode.PICK_ZERO r states inc exc = some c →
          c.locked = false ∧ c.queueRemaining = 0) ∧
    (∀ (mode : EQueueMode) (r : Nat) (states : List ClientState)
        (c : ClientState),
        getAvailableClientPickTs mode r states = some c →
          c.locked = false) := by
  refine ⟨?_, ?_, ?_⟩
  · intro mode r states inc exc c h
    rw [getAvailableClientPick] at h
    cases hi : selectIdx mode r (states.filter (clientFilterPred inc exc)) with
    | none => rw [hi] at h; cases h
    | some i =>
      rw [hi] at h
      simp only at h
      have hc : c ∈ states.filter (clientFilterPred inc exc) :=
        List.getElem?_mem h
      exact clientFilterPred_online (List.mem_filter.mp hc).2
  · intro r states inc exc c h
    rw [getAvailableClientPick] at h
    cases hi : selectIdx EQueueMode.PICK_ZERO r
        (states.filter (clientFilterPred inc exc)) with
    | none => rw [hi] at h; cases h
    | some i =>
      rw [hi] at h
      simp only at h
      have hi' : findIdxA (fun c => c.queueRemaining == 0 && !c.locked && c.id != "")
          (states.filter (clientFilterPred inc exc)) = some i := hi
      have hp := findIdxA_getElem hi' h
      simp only [Bool.and_eq_true, beq_iff_eq, Bool.not_eq_true'] at hp
      exact ⟨hp.1.2, hp.1.1⟩
  · intro mode r states c h
    rw [getAvailableClientPickTs] at h
    cases hi : selectIdxTs mode r states with
    | none => rw [hi] at h; cases h
    | some i =>
      rw [hi] at h
      simp only at h
      cases hg : states[i]? with
      | none => rw [hg] at h; cases h
      | some c' =>
        rw [hg] at h
        by_cases hl : c'.locked
        · simp [hl] at h
        · simp [hl] at h
          exact h ▸ (Bool.not_eq_true c'.locked).mp hl

/-- Witness for C3 (amended) at a concrete online, unlocked client. -/
theorem c3_selected_client_state_witness :
    (ClientState.mk "a" 0 false true).online = true
      ∧ ((ClientState.mk "a" 0 false true).locked = false
          ∧ (ClientState.mk "a" 0 false true).queueRemaining = 0)
      ∧ (ClientState.mk "a" 0 false true).locked = false :=
  ⟨c3_selected_client_state.1 EQueueMode.PICK_ZERO 0
      [ClientState.mk "a" 0 false true] none none _ (by decide),
   c3_selected_client_state.2.1 0
      [ClientState.mk "a" 0 false true] none none _ (by decide),
   c3_selected_client_state.2.2 EQueueMode.PICK_ZERO 0
      [ClientState.mk "a" 0 false true] _ (by decide)⟩

/-! ## Workflow bypass transformer (CallWrapper.bypassWorkflowNodes) -/

/-- A workflow input value: either a literal or a connection
`[nodeId, portIndex]`. -/
inductive WInput
  | lit (v : Nat)
  | conn (node : String) (port : Nat)
deriving DecidableEq, Repr

/-- A workflow node: its class type and its named inputs in declaration
order. -/
structure WNode where
  class_type : String
  inputs : List (String × WInput)
deriving DecidableEq, Repr

/-- A workflow graph: nodes keyed by id, in object insertion order. -/
abbrev Workflow := List (String × WNode)

/-- A node definition from the server: output port types in order, and the
declared type of each required / optional input. -/
structure NodeDef where
  output : List String
  requiredInputs : List (String × String)
  optionalInputs : List (String × String)
deriving DecidableEq, Repr

/-- The inner scan of the output-connection loop: the first not-yet-consumed
input whose required (or optional) declared type equals `outputType`. -/
def findMatchInput (d : NodeDef) (inputs : List (String × WInput))
    (consumed : List String) (outputType : String) : Option (String × WInput) :=
  inputs.find? fun p =>
    !(consumed.contains p.1)
      && ((d.requiredInputs.lookup p.1 == some outputType)
          || (d.optionalInputs.lookup p.1 == some outputType))

/-- The output-connection loop of `bypassWorkflowNodes`: for each output port
in declared order, record the value of the first type-matching unconsumed
input as that port's pass-through value. -/
def connectOutputs (d : NodeDef) (inputs : List (String × WInput)) :
    Nat → List String → List String → List (Nat × WInput)
  | _, [], _ => []
  | i, t :: ts, consumed =>
    match findMatchInput d inputs consumed t with
    | some p => (i, p.2) :: connectOutputs d inputs (i + 1) ts (consumed ++ [p.1])
    | none => connectOutputs d inputs (i + 1) ts consumed

/-- The search-and-replace loop over one node's inputs: a reference
`[nodeId, port]` is rewritten to the recorded pass-through value for `port`,
or deleted when none was recorded; other inputs are kept. -/
def rewireInputs (nodeId : String) (conns : List (Nat × WInput))
    (inputs : List (String × WInput)) : List (String × WInput) :=
  inputs.filterMap fun p =>
    match p.2 with
    | WInput.conn nid port =>
      if nid = nodeId then
        match conns.lookup port with
        | some w => some (p.1, w)
        | none => none
      else some p
    | WInput.lit _ => some p

/-- Bypass a single node: resolve its definition, compute its pass-through
connections, rewrite every input in the graph referencing it, and remove it.
`none` models the thrown `MissingNodeError`. -/
def bypassOneNode (getDefs : String → Option NodeDef) (wf : Workflow)
    (nodeId : String) : Option Workflow :=
  match wf.lookup nodeId with
  | none => none
  | some node =>
    match getDefs node.class_type with
    | none => none
    | some d =>
      let conns := connectOutputs d node.inputs 0 d.output []
      some (((wf.map fun p =>
          (p.1, WNode.mk p.2.class_type (rewireInputs nodeId conns p.2.inputs))).filter
            fun p => p.1 ≠ nodeId))

/-- Embedding of `CallWrapper.bypassWorkflowNodes`: bypass each flagged node
in caller order; the first failure aborts the whole transformation. -/
def bypassWorkflowNodes (getDefs : String → Option NodeDef) (wf : Workflow)
    (bypassNodes : List String) : Option Workflow :=
  bypassNodes.foldlM (bypassOneNode getDefs) wf

theorem lookup_filter_ne {wf : List (String × WNode)} {nodeId : String} :
    (wf.filter fun p => p.1 ≠ nodeId).lookup nodeId = none := by
  induction wf with
  | nil => rfl
  | cons p rest ih =>
    by_cases hp : p.1 = nodeId
    · simp [List.filter_cons, hp, ih]
      intro a b _ ha
      exact fun he => ha he.symm
    · simp [List.filter_cons, hp, ih]
      refine ⟨fun he => hp he.symm, ?_⟩
      intro a b _ ha
      exact fun he => ha he.symm

/-- A concrete A→B→C chain: node 1 (A) feeds node 2 (B, class Upscale),
whose output node 3 (C) references. -/
def chainWf : Workflow :=
  [("1", WNode.mk "Load" [("path", WInput.lit 7)]),
   ("2", WNode.mk "Upscale" [("image", WInput.conn "1" 0), ("scale", WInput.lit 2)]),
   ("3", WNode.mk "Save" [("image", WInput.conn "2" 0)])]

/-- Server definitions where B's IMAGE output type-matches its A-fed
`image` input. -/
def chainDefs : String → Option NodeDef := fun ct =>
  if ct = "Upscale" then
    some (NodeDef.mk ["IMAGE"] [("image", "IMAGE"), ("scale", "INT")] [])
  else none

/-- Server definitions where B's output type matches none of its inputs. -/
def chainDefsNoMatch : String → Option NodeDef := fun ct =>
  if ct = "Upscale" then
    some (NodeDef.mk ["LATENT"] [("image", "IMAGE"), ("scale", "INT")] [])
  else none

/-- Claim C8: bypassing B in a chain A→B→C rewires C's referencing input to
the type-matching input's value (linking A to C) when B has one, deletes C's
referencing input when it has none, and removes B in both cases; in general a
reference to a recorded port is rewritten to its pass-through value, an
unrecorded reference is deleted, and the bypassed node disappears from the
graph. -/
theorem c8_bypass_rewires_chain :
    (∀ (getDefs : String → Option NodeDef) (wf : Workflow) (nodeId : String)
        (wf' : Workflow),
        bypassWorkflowNodes getDefs wf [nodeId] = some wf' →
          wf'.lookup nodeId = none) ∧
    (∀ (nodeId : String) (conns : List (Nat × WInput)) (name : String)
        (port : Nat),
        rewireInputs nodeId conns [(name, WInput.conn nodeId port)]
          = match conns.lookup port with
            | some w => [(name, w)]
            | none => []) ∧
    bypassWorkflowNodes chainDefs chainWf ["2"]
      = some [("1", WNode.mk "Load" [("path", WInput.lit 7)]),
              ("3", WNode.mk "Save" [("image", WInput.conn "1" 0)])] ∧
    bypassWorkflowNodes chainDefsNoMatch chainWf ["2"]
      = some [("1", WNode.mk "Load" [("path", WInput.lit 7)]),
              ("3", WNode.mk "Save" [])] := by
  refine ⟨?_, ?_, by decide, by decide⟩
  · intro getDefs wf nodeId wf' h
    simp only [bypassWorkflowNodes, List.foldlM] at h
    cases hl : wf.lookup nodeId with
    | none => simp [bypassOneNode, hl] at h
    | some node =>
      cases hd : getDefs node.class_type with
      | none => simp [bypassOneNode, hl, hd] at h
      | some d =>
        simp only [bypassOneNode, hl, hd, Option.bind_eq_bind, Option.some_bind,
          Option.pure_def, Option.some.injEq] at h
        subst h
        exact lookup_filter_ne
  · intro nodeId conns name port
    cases hc : conns.lookup port with
    | none => simp [rewireInputs, hc]
    | some w => simp [rewireInputs, hc]

/-- Witness for C8's hypothesis: the bypassed node is gone from the concrete
transformed chain. -/
theorem c8_bypass_rewires_chain_witness :
    (List.lookup "2"
        [("1", WNode.mk "Load" [("path", WInput.lit 7)]),
         ("3", WNode.mk "Save" [("image", WInput.conn "1" 0)])]) = none :=
  c8_bypass_rewires_chain.1 chainDefs chainWf "2"
    [("1", WNode.mk "Load" [("path", WInput.lit 7)]),
     ("3", WNode.mk "Save" [("image", WInput.conn "1" 0)])] (by decide)

/-! ## Execution correlator (CallWrapper.run and its push handlers)

The wrapper is modelled as a deterministic interpreter over a scenario: the
enqueue outcome, the successive responses of `getHistory` (one entry consumed
per fetch, `none` = absent record), and the ordered stream of push events
delivered by the client.  Phases mirror the source: the load race
(executing / execution_cached / status watchdog), the history consultation
after the race, and the live phase installed by `handleJobExecution`.
Callback invocations are recorded in order; the outcome is the settlement of
the promise `run()` hands to its caller. -/

/-- One `getHistory` response: `status.completed` and the `outputs` object
(node id to value). -/
structure HistoryRec where
  completed : Bool
  outputs : List (String × Nat)
deriving DecidableEq, Repr

/-- `mapOutputKeys`: logical output key to node id (or null). -/
abbrev MapOut := List (String × Option String)

/-- The push events the wrapper subscribes to. -/
inductive Ev
  | executing (pid : String)
  | executionCached (pid : String) (nodes : List String)
  | statusEv (queueIds : List String)
  | executed (pid : String) (node : String) (value : Nat)
  | executionSuccess (pid : String)
  | executionError (pid : String) (excType : String)
  | executionInterrupted (pid : String)
  | disconnected
  | progress (pid : String)
deriving DecidableEq, Repr

/-- The typed failure reasons handed to the failure callback. -/
inductive CWErr
  | enqueueFailed
  | genericEnqueue
  | failedCache
  | wentMissing
  | customEvent (excType : String)
  | interrupted
  | executionFailed
  | disconnected
deriving DecidableEq, Repr

/-- A recorded callback invocation. -/
inductive CB
  | pendingCb (pid : String)
  | startCb (pid : String)
  | outputCb (key : String) (value : Nat)
  | finishedCb (data : List (String × Option Nat))
  | failedCb (e : CWErr)
  | progressCb (pid : String)
deriving DecidableEq, Repr

/-- How the promise returned by `run()` settles: a resolved output map, a
resolved `false`, or never (no resolution by the end of the event stream). -/
inductive Outcome
  | completedMap (data : List (String × Option Nat))
  | resolvedFalse
  | stillPending
deriving DecidableEq, Repr

/-- The observable result of one run: the settlement of `run()`'s promise and
the callback invocations in order. -/
structure RunResult where
  outcome : Outcome
  cbs : List CB
deriving DecidableEq, Repr

/-- JS object assignment `output[key] = value`: overwrite in place, else
append. -/
def assocSet (l : List (String × Nat)) (k : String) (v : Nat) :
    List (String × Nat) :=
  if l.any (fun p => p.1 == k) then
    l.map (fun p => if p.1 == k then (k, v) else p)
  else l ++ [(k, v)]

/-- Embedding of `CallWrapper.reverseMapOutputKeys`: node id to key, built by
object assignment over the entries with a non-null node id. -/
def reverseMapOutputKeys (m : MapOut) : List (String × String) :=
  m.foldl (fun acc p =>
    match p.2 with
    | some v =>
      if acc.any (fun q => q.1 == v) then
        acc.map (fun q => if q.1 == v then (v, p.1) else q)
      else acc ++ [(v, p.1)]
    | none => acc) []

/-- Embedding of `CallWrapper.mapOutput`: for every key with a non-null node
id, the history value of that node (`none` = JS `undefined`). -/
def mapOutput (m : MapOut) (outputs : List (String × Nat)) :
    List (String × Option Nat) :=
  m.filterMap fun p =>
    match p.2 with
    | some node => some (p.1, outputs.lookup node)
    | none => none

/-- The three-valued result of `CallWrapper.handleCachedOutput`: an output
map (some value defined), `false` (completed but nothing mapped), or `null`
(no completed record). -/
inductive CachedResult
  | found (out : List (String × Option Nat))
  | cacheFailed
  | absent
deriving DecidableEq, Repr

/-- Embedding of `CallWrapper.handleCachedOutput` applied to one fetched
history response. -/
def handleCachedOutput (m : MapOut) (hist : Option HistoryRec) : CachedResult :=
  match hist with
  | some h =>
    if h.completed then
      if (mapOutput m h.outputs).any (fun p => p.2.isSome) then
        CachedResult.found (mapOutput m h.outputs)
      else CachedResult.cacheFailed
    else CachedResult.absent
  | none => CachedResult.absent

/-- Consume the next `getHistory` response (absent once exhausted). -/
def popHist : List (Option HistoryRec) → Option HistoryRec × List (Option HistoryRec)
  | [] => (none, [])
  | h :: t => (h, t)

/-- The live phase installed by `CallWrapper.handleJobExecution`, processing
the remaining event stream.  `rev` is the reverse output map (its length is
the captured `totalOutput`), `remaining` mirrors the JS `remainingOutput`
counter, `acc` the accumulated `this.output` object, `started` the
`this.started` flag.  The status watchdog stays subscribed during this phase.
An exhausted stream with no settlement leaves the promise pending. -/
def runLive (m : MapOut) (pid : String) (rev : List (String × String)) :
    List (Option HistoryRec) → Int → Bool → List (String × Nat) → List CB →
    List Ev → RunResult
  | _, _, _, _, cbs, [] => ⟨Outcome.stillPending, cbs⟩
  | hs, remaining, started, acc, cbs, e :: rest =>
    match e with
    | Ev.progress p =>
      if p = pid ∧ started = false then
        runLive m pid rev hs remaining true acc
          (cbs ++ [CB.startCb pid, CB.progressCb p]) rest
      else
        runLive m pid rev hs remaining started acc (cbs ++ [CB.progressCb p]) rest
    | Ev.executed p node v =>
      if p = pid then
        match rev.lookup node with
        | some key =>
          if remaining - 1 = 0 then
            ⟨Outcome.completedMap ((assocSet acc key v).map fun q => (q.1, some q.2)),
             cbs ++ [CB.outputCb key v,
               CB.finishedCb ((assocSet acc key v).map fun q => (q.1, some q.2))]⟩
          else
            runLive m pid rev hs (remaining - 1) started (assocSet acc key v)
              (cbs ++ [CB.outputCb key v]) rest
        | none =>
          if remaining = 0 then
            ⟨Outcome.completedMap (acc.map fun q => (q.1, some q.2)),
             cbs ++ [CB.finishedCb (acc.map fun q => (q.1, some q.2))]⟩
          else runLive m pid rev hs remaining started acc cbs rest
      else runLive m pid rev hs remaining started acc cbs rest
    | Ev.executionSuccess _ =>
      if remaining ≠ 0 then
        match popHist hs with
        | (some hr, hs') =>
          if hr.completed = true ∧ 0 < hr.outputs.length
              ∧ (hr.outputs.length : Int) - (rev.length : Int) = 0 then
            runLive m pid rev hs' remaining started acc cbs rest
          else ⟨Outcome.resolvedFalse, cbs ++ [CB.failedCb CWErr.executionFailed]⟩
        | (none, _) =>
          ⟨Outcome.resolvedFalse, cbs ++ [CB.failedCb CWErr.executionFailed]⟩
      else runLive m pid rev hs remaining started acc cbs rest
    | Ev.executionError p t =>
      if p = pid then
        ⟨Outcome.resolvedFalse, cbs ++ [CB.failedCb (CWErr.customEvent t)]⟩
      else runLive m pid rev hs remaining started acc cbs rest
    | Ev.executionInterrupted p =>
      if p = pid then
        ⟨Outcome.resolvedFalse, cbs ++ [CB.failedCb CWErr.interrupted]⟩
      else runLive m pid rev hs remaining started acc cbs rest
    | Ev.disconnected =>
      runLive m pid rev hs remaining started acc
        (cbs ++ [CB.failedCb CWErr.disconnected]) rest
    | Ev.statusEv qids =>
      if pid ∈ qids then runLive m pid rev hs remaining started acc cbs rest
      else
        match handleCachedOutput m (popHist hs).1 with
        | CachedResult.found out =>
          ⟨Outcome.completedMap out, cbs ++ [CB.finishedCb out]⟩
        | _ => ⟨Outcome.resolvedFalse, cbs ++ [CB.failedCb CWErr.wentMissing]⟩
    | Ev.executing _ => runLive m pid rev hs remaining started acc cbs rest
    | Ev.executionCached _ _ => runLive m pid rev hs remaining started acc cbs rest

/-- What `run()` does once the load race settles with `wentMissing` false: it
consults history once; a found map completes, a completed-but-empty record
fails the cache, an absent record enters the live phase. -/
def afterLoad (m : MapOut) (pid : String) (hs : List (Option HistoryRec))
    (cbs : List CB) (rest : List Ev) : RunResult :=
  match handleCachedOutput m (popHist hs).1 with
  | CachedResult.found out =>
    ⟨Outcome.completedMap out, cbs ++ [CB.finishedCb out]⟩
  | CachedResult.cacheFailed =>
    ⟨Outcome.resolvedFalse, cbs ++ [CB.failedCb CWErr.failedCache]⟩
  | CachedResult.absent =>
    runLive m pid (reverseMapOutputKeys m) (popHist hs).2
      ((reverseMapOutputKeys m).length : Int) false [] cbs rest

/-- The load race: `checkExecutingFn`, `checkExecutionCachedFn` and the
status watchdog, processing events until the one-shot load promise resolves.
Note the watchdog's found-output branch resolves the inner job promise and
cleans up without ever resolving the load promise, so `run()` itself stays
pending forever. -/
def runLoading (m : MapOut) (pid : String) :
    List (Option HistoryRec) → List CB → List Ev → RunResult
  | _, cbs, [] => ⟨Outcome.stillPending, cbs⟩
  | hs, cbs, e :: rest =>
    match e with
    | Ev.executing p =>
      if p = pid then afterLoad m pid hs cbs rest
      else runLoading m pid hs cbs rest
    | Ev.executionCached p nodes =>
      if 0 < nodes.length ∧ p = pid then afterLoad m pid hs cbs rest
      else runLoading m pid hs cbs rest
    | Ev.statusEv qids =>
      if pid ∈ qids then runLoading m pid hs cbs rest
      else
        match handleCachedOutput m (popHist hs).1 with
        | CachedResult.found out =>
          ⟨Outcome.stillPending, cbs ++ [CB.finishedCb out]⟩
        | _ => ⟨Outcome.resolvedFalse, cbs ++ [CB.failedCb CWErr.wentMissing]⟩
    | Ev.disconnected =>
      runLoading m pid hs (cbs ++ [CB.failedCb CWErr.disconnected]) rest
    | _ => runLoading m pid hs cbs rest

/-- A run scenario: the output mapping, the enqueue outcome (`none` =
`appendPrompt` rejected), the successive history responses, and the event
stream. -/
structure RunEnv where
  mapOut : MapOut
  enqueued : Option String
  histories : List (Option HistoryRec)
  events : List Ev
deriving DecidableEq, Repr

/-- Embedding of `CallWrapper.run`: a failed enqueue fires the typed
`EnqueueFailedError` (in `enqueueJob`) plus the generic queue error (in
`run`) and resolves `false`; otherwise the pending callback fires and the
load race starts. -/
def runWrapper (sc : RunEnv) : RunResult :=
  match sc.enqueued with
  | none =>
    ⟨Outcome.resolvedFalse,
     [CB.failedCb CWErr.enqueueFailed, CB.failedCb CWErr.genericEnqueue]⟩
  | some pid => runLoading sc.mapOut pid sc.histories [CB.pendingCb pid] sc.events

/-- Counterexample to claim C1 as stated: a `disconnected` push only invokes
the failure callback (the handler registered in `enqueueJob` never resolves
the promise), so `run()` does not resolve `false` on disconnect — it stays
pending. -/
theorem c1_counterexample :
    runWrapper ⟨[("a", some "n1")], some "p", [], [Ev.disconnected]⟩
      = ⟨Outcome.stillPending, [CB.pendingCb "p", CB.failedCb CWErr.disconnected]⟩
      ∧ (runWrapper ⟨[("a", some "n1")], some "p", [], [Ev.disconnected]⟩).outcome
          ≠ Outcome.resolvedFalse := by
  exact ⟨rfl, by decide⟩

/-- Claim C1 (amended): for enqueue failure, failed cache, went-missing,
server-reported execution error and interruption, `run()` resolves `false`
(never rejects) and the failure callback receives the corresponding typed
error; on a `disconnected` push the failure callback fires with the typed
disconnect error but the promise is never resolved and stays pending. -/
theorem c1_failure_delivery :
    (∀ (m : MapOut) (hs : List (Option HistoryRec)) (evs : List Ev),
        runWrapper ⟨m, none, hs, evs⟩
          = ⟨Outcome.resolvedFalse,
             [CB.failedCb CWErr.enqueueFailed, CB.failedCb CWErr.genericEnqueue]⟩) ∧
    (∀ (m : MapOut) (pid : String) (h : HistoryRec) (rest : List Ev),
        h.completed = true →
        (mapOutput m h.outputs).any (fun p => p.2.isSome) = false →
        runWrapper ⟨m, some pid, [some h], Ev.executing pid :: rest⟩
          = ⟨Outcome.resolvedFalse,
             [CB.pendingCb pid, CB.failedCb CWErr.failedCache]⟩) ∧
    (∀ (m : MapOut) (pid : String) (qids : List String) (rest : List Ev),
        pid ∉ qids →
        runWrapper ⟨m, some pid, [none], Ev.statusEv qids :: rest⟩
          = ⟨Outcome.resolvedFalse,
             [CB.pendingCb pid, CB.failedCb CWErr.wentMissing]⟩) ∧
    (∀ (m : MapOut) (pid t : String) (rest : List Ev),
        runWrapper ⟨m, some pid, [none],
            Ev.executing pid :: Ev.executionError pid t :: rest⟩
          = ⟨Outcome.resolvedFalse,
             [CB.pendingCb pid, CB.failedCb (CWErr.customEvent t)]⟩) ∧
    (∀ (m : MapOut) (pid : String) (rest : List Ev),
        runWrapper ⟨m, some pid, [none],
            Ev.executing pid :: Ev.executionInterrupted pid :: rest⟩
          = ⟨Outcome.resolvedFalse,
             [CB.pendingCb pid, CB.failedCb CWErr.interrupted]⟩) ∧
    (∀ (m : MapOut) (pid : String) (hs : List (Option HistoryRec)),
        runWrapper ⟨m, some pid, hs, [Ev.disconnected]⟩
          = ⟨Outcome.stillPending,
             [CB.pendingCb pid, CB.failedCb CWErr.disconnected]⟩) := by
  refine ⟨?_, ?_, ?_, ?_, ?_, ?_⟩
  · intro m hs evs
    rfl
  · intro m pid h rest hc hany
    simp [runWrapper, runLoading, afterLoad, handleCachedOutput, popHist, hc, hany]
  · intro m pid qids rest hq
    simp [runWrapper, runLoading, handleCachedOutput, popHist, hq]
  · intro m pid t rest
    simp [runWrapper, runLoading, afterLoad, runLive, handleCachedOutput, popHist]
  · intro m pid rest
    simp [runWrapper, runLoading, afterLoad, runLive, handleCachedOutput, popHist]
  · intro m pid hs
    simp [runWrapper, runLoading]

/-- Witness for C1 (amended) at concrete scenarios. -/
theorem c1_failure_delivery_witness :
    runWrapper ⟨[("a", some "n1")], some "p", [none], [Ev.statusEv ["x"]]⟩
      = ⟨Outcome.resolvedFalse,
         [CB.pendingCb "p", CB.failedCb CWErr.wentMissing]⟩
      ∧ runWrapper ⟨[("a", some "n1")], some "p", [some ⟨true, []⟩],
          [Ev.executing "p"]⟩
        = ⟨Outcome.resolvedFalse,
           [CB.pendingCb "p", CB.failedCb CWErr.failedCache]⟩ :=
  ⟨c1_failure_delivery.2.2.1 [("a", some "n1")] "p" ["x"] [] (by decide),
   c1_failure_delivery.2.1 [("a", some "n1")] "p" ⟨true, []⟩ [] (by decide) (by decide)⟩

/-- Claim C7: when a status push finds the prompt id in neither queue
snapshot and no completed history record exists, `run()` resolves `false`
and the failure callback fires exactly once, with the went-missing error —
whatever events follow the terminal cleanup. -/
theorem c7_went_missing :
    ∀ (m : MapOut) (pid : String) (qids : List String)
      (fh : Option HistoryRec) (rest : List Ev),
      pid ∉ qids →
      (∀ h, fh = some h → h.completed = false) →
      runWrapper ⟨m, some pid, [fh], Ev.statusEv qids :: rest⟩
        = ⟨Outcome.resolvedFalse,
           [CB.pendingCb pid, CB.failedCb CWErr.wentMissing]⟩ := by
  intro m pid qids fh rest hq hfh
  cases fh with
  | none => simp [runWrapper, runLoading, handleCachedOutput, popHist, hq]
  | some h =>
    have hc : h.completed = false := hfh h rfl
    simp [runWrapper, runLoading, handleCachedOutput, popHist, hq, hc]

/-- Witness for C7 at a concrete scenario with a not-completed record. -/
theorem c7_went_missing_witness :
    runWrapper ⟨[("a", some "n1")], some "p", [some ⟨false, [("n1", 3)]⟩],
        [Ev.statusEv ["q1", "q2"], Ev.executed "p" "n1" 3]⟩
      = ⟨Outcome.resolvedFalse,
         [CB.pendingCb "p", CB.failedCb CWErr.wentMissing]⟩ :=
  c7_went_missing [("a", some "n1")] "p" ["q1", "q2"]
    (some ⟨false, [("n1", 3)]⟩) [Ev.executed "p" "n1" 3] (by decide)
    (by intro h hh; cases hh; rfl)

/-- Claim C10: the `execution_success` handler is installed with no
prompt-id filter, so a success push carrying any prompt id — here an
arbitrary `q`, including one different from this job's — triggers the
reconciliation fetch while `remainingOutput > 0` and, when the fetched
history does not match, fails this job with the execution-failed error. -/
theorem c10_success_no_prompt_filter :
    ∀ (m : MapOut) (pid q : String) (hsTail : List (Option HistoryRec))
      (rest : List Ev),
      ((reverseMapOutputKeys m).length : Int) ≠ 0 →
      runWrapper ⟨m, some pid, [none, none] ++ hsTail,
          [Ev.executing pid, Ev.executionSuccess q] ++ rest⟩
        = ⟨Outcome.resolvedFalse,
           [CB.pendingCb pid, CB.failedCb CWErr.executionFailed]⟩ := by
  intro m pid q hsTail rest htot
  simp [runWrapper, runLoading, afterLoad, runLive, handleCachedOutput,
    popHist, htot]

/-- Witness for C10: a success push for prompt "other" fails the job with
prompt "p". -/
theorem c10_success_no_prompt_filter_witness :
    runWrapper ⟨[("a", some "n1")], some "p", [none, none] ++ [],
        [Ev.executing "p", Ev.executionSuccess "other"] ++ []⟩
      = ⟨Outcome.resolvedFalse,
         [CB.pendingCb "p", CB.failedCb CWErr.executionFailed]⟩ :=
  c10_success_no_prompt_filter [("a", some "n1")] "p" "other" [] [] (by decide)

theorem mapOutput_keys (m : MapOut) (outs : List (String × Nat)) :
    (mapOutput m outs).map (fun p => p.1)
      = (m.filter (fun p => p.2.isSome)).map (fun p => p.1) := by
  induction m with
  | nil => rfl
  | cons p t ih =>
    simp only [mapOutput] at ih
    cases hp : p.2 with
    | none => simp [mapOutput, List.filterMap_cons, List.filter_cons, hp, ih]
    | some v =>
      simp [mapOutput, List.filterMap_cons, List.filter_cons, hp]
      exact ih

/-- Claim C5: an `execution_cached` push for this prompt whose node set
covers every requested output node, arriving before any `executing` push,
followed by a completed history record with at least one mapped output,
makes `run()` resolve the output map (whose keys are exactly the keys of the
caller's mapping with a node id) with the finished callback firing exactly
once and no executed push consumed; a completed record with no mapped output
yields the failed-cache error instead. -/
theorem c5_cached_hit :
    (∀ (m : MapOut) (outs : List (String × Nat)),
        (mapOutput m outs).map (fun p => p.1)
          = (m.filter (fun p => p.2.isSome)).map (fun p => p.1)) ∧
    (∀ (m : MapOut) (pid : String) (nodes : List String) (h : HistoryRec)
        (rest : List Ev),
        nodes ≠ [] →
        (m.filterMap (fun p => p.2)).all (fun n => nodes.contains n) = true →
        h.completed = true →
        (mapOutput m h.outputs).any (fun p => p.2.isSome) = true →
        runWrapper ⟨m, some pid, [some h], Ev.executionCached pid nodes :: rest⟩
          = ⟨Outcome.completedMap (mapOutput m h.outputs),
             [CB.pendingCb pid, CB.finishedCb (mapOutput m h.outputs)]⟩) ∧
    (∀ (m : MapOut) (pid : String) (nodes : List String) (h : HistoryRec)
        (rest : List Ev),
        nodes ≠ [] →
        h.completed = true →
        (mapOutput m h.outputs).any (fun p => p.2.isSome) = false →
        runWrapper ⟨m, some pid, [some h], Ev.executionCached pid nodes :: rest⟩
          = ⟨Outcome.resolvedFalse,
             [CB.pendingCb pid, CB.failedCb CWErr.failedCache]⟩) := by
  refine ⟨mapOutput_keys, ?_, ?_⟩
  · intro m pid nodes h rest hne _ hc hany
    have hlen : 0 < nodes.length := List.length_pos.mpr hne
    simp [runWrapper, runLoading, afterLoad, handleCachedOutput, popHist,
      hlen, hc, hany]
  · intro m pid nodes h rest hne hc hany
    have hlen : 0 < nodes.length := List.length_pos.mpr hne
    simp [runWrapper, runLoading, afterLoad, handleCachedOutput, popHist,
      hlen, hc, hany]

/-- Witness for C5 at a concrete two-output cached scenario, with executed
pushes after the hit that are ignored. -/
theorem c5_cached_hit_witness :
    runWrapper ⟨[("a", some "n1"), ("b", some "n2")], some "p",
        [some ⟨true, [("n1", 5), ("n2", 6)]⟩],
        Ev.executionCached "p" ["n1", "n2"] :: [Ev.executed "p" "n1" 9]⟩
      = ⟨Outcome.completedMap [("a", some 5), ("b", some 6)],
         [CB.pendingCb "p", CB.finishedCb [("a", some 5), ("b", some 6)]]⟩ :=
  c5_cached_hit.2.1 [("a", some "n1"), ("b", some "n2")] "p" ["n1", "n2"]
    ⟨true, [("n1", 5), ("n2", 6)]⟩ [Ev.executed "p" "n1" 9]
    (by decide) (by decide) (by decide) (by decide)

/-- Counterexample to claim C4 as stated: an `execution_success` push with
`remainingOutput = 1 > 0` whose reconciliation fetch returns a completed
record with the expected output count does NOT complete the job — the handler
just returns, leaving the promise pending (awaiting further executed
pushes), instead of resolving with the output map. -/
theorem c4_counterexample :
    runWrapper ⟨[("a", some "n1"), ("b", some "n2")], some "p",
        [none, some ⟨true, [("n1", 5), ("n2", 6)]⟩],
        [Ev.executing "p", Ev.executed "p" "n1" 5, Ev.executionSuccess "p"]⟩
      = ⟨Outcome.stillPending, [CB.pendingCb "p", CB.outputCb "a" 5]⟩
      ∧ (runWrapper ⟨[("a", some "n1"), ("b", some "n2")], some "p",
          [none, some ⟨true, [("n1", 5), ("n2", 6)]⟩],
          [Ev.executing "p", Ev.executed "p" "n1" 5, Ev.executionSuccess "p"]⟩).outcome
        ≠ Outcome.completedMap [("a", some 5), ("b", some 6)] := by
  exact ⟨by decide, by decide⟩

/-- Claim C4 (amended): an `execution_success` push with unreceived outputs
triggers a history fetch; a completed record whose output count equals the
expected total leaves the job untouched in the live phase (still awaiting
its executed pushes, which can then complete it, as the concrete scenario
shows); any other fetch outcome fires the execution-failed error and
resolves `false`. -/
theorem c4_success_reconciliation :
    (∀ (m : MapOut) (pid q : String) (h : HistoryRec)
        (hsTail : List (Option HistoryRec)) (rest : List Ev),
        h.completed = true →
        0 < h.outputs.length →
        (h.outputs.length : Int) - ((reverseMapOutputKeys m).length : Int) = 0 →
        ((reverseMapOutputKeys m).length : Int) ≠ 0 →
        runWrapper ⟨m, some pid, none :: some h :: hsTail,
            Ev.executing pid :: Ev.executionSuccess q :: rest⟩
          = runLive m pid (reverseMapOutputKeys m) hsTail
              ((reverseMapOutputKeys m).length : Int) false []
              [CB.pendingCb pid] rest) ∧
    (∀ (m : MapOut) (pid q : String) (fh : Option HistoryRec)
        (hsTail : List (Option HistoryRec)) (rest : List Ev),
        (∀ h, fh = some h →
          ¬(h.completed = true ∧ 0 < h.outputs.length
            ∧ (h.outputs.length : Int) - ((reverseMapOutputKeys m).length : Int) = 0)) →
        ((reverseMapOutputKeys m).length : Int) ≠ 0 →
        runWrapper ⟨m, some pid, none :: fh :: hsTail,
            Ev.executing pid :: Ev.executionSuccess q :: rest⟩
          = ⟨Outcome.resolvedFalse,
             [CB.pendingCb pid, CB.failedCb CWErr.executionFailed]⟩) ∧
    runWrapper ⟨[("a", some "n1"), ("b", some "n2")], some "p",
        [none, some ⟨true, [("n1", 5), ("n2", 6)]⟩],
        [Ev.executing "p", Ev.executed "p" "n1" 5, Ev.executionSuccess "p",
         Ev.executed "p" "n2" 6]⟩
      = ⟨Outcome.completedMap [("a", some 5), ("b", some 6)],
         [CB.pendingCb "p", CB.outputCb "a" 5, CB.outputCb "b" 6,
          CB.finishedCb [("a", some 5), ("b", some 6)]]⟩ := by
  refine ⟨?_, ?_, by decide⟩
  · intro m pid q h hsTail rest hc hlen hmatch htot
    simp [runWrapper, runLoading, afterLoad, runLive, handleCachedOutput,
      popHist, hc, hlen, hmatch, htot]
  · intro m pid q fh hsTail rest hnm htot
    cases fh with
    | none =>
      simp [runWrapper, runLoading, afterLoad, runLive, handleCachedOutput,
        popHist, htot]
    | some h =>
      have hcond : ¬(h.completed = true ∧ 0 < h.outputs.length
          ∧ (h.outputs.length : Int) - ((reverseMapOutputKeys m).length : Int) = 0) :=
        hnm h rfl
      simp [runWrapper, runLoading, afterLoad, runLive, handleCachedOutput,
        popHist, htot, hcond]

/-- Witness for C4 (amended): the no-op branch at a concrete matching
record, and the failure branch at an absent record. -/
theorem c4_success_reconciliation_witness :
    runWrapper ⟨[("a", some "n1"), ("b", some "n2")], some "p",
        none :: some ⟨true, [("n1", 5), ("n2", 6)]⟩ :: [],
        Ev.executing "p" :: Ev.executionSuccess "q" :: []⟩
      = runLive [("a", some "n1"), ("b", some "n2")] "p"
          (reverseMapOutputKeys [("a", some "n1"), ("b", some "n2")]) []
          ((reverseMapOutputKeys [("a", some "n1"), ("b", some "n2")]).length : Int)
          false [] [CB.pendingCb "p"] []
      ∧ runWrapper ⟨[("a", some "n1")], some "p", none :: none :: [],
          Ev.executing "p" :: Ev.executionSuccess "q" :: []⟩
        = ⟨Outcome.resolvedFalse,
           [CB.pendingCb "p", CB.failedCb CWErr.executionFailed]⟩ :=
  ⟨c4_success_reconciliation.1 [("a", some "n1"), ("b", some "n2")] "p" "q"
      ⟨true, [("n1", 5), ("n2", 6)]⟩ [] [] (by decide) (by decide) (by decide)
      (by decide),
   c4_success_reconciliation.2.1 [("a", some "n1")] "p" "q" none [] []
      (by intro h hh; cases hh) (by decide)⟩

/-- Counterexample to claim C6 as stated: the first `executed` push matching
this prompt (whose value is recorded — the output callback fires) does NOT
fire the start callback; in the code the start callback is wired to the
`progress` handler, not the `executed` handler. -/
theorem c6_counterexample :
    runWrapper ⟨[("a", some "n1"), ("b", some "n2")], some "p", [none],
        [Ev.executing "p", Ev.executed "p" "n1" 5]⟩
      = ⟨Outcome.stillPending, [CB.pendingCb "p", CB.outputCb "a" 5]⟩
      ∧ CB.startCb "p" ∉ (runWrapper ⟨[("a", some "n1"), ("b", some "n2")],
          some "p", [none], [Ev.executing "p", Ev.executed "p" "n1" 5]⟩).cbs
      ∧ CB.outputCb "a" 5 ∈ (runWrapper ⟨[("a", some "n1"), ("b", some "n2")],
          some "p", [none], [Ev.executing "p", Ev.executed "p" "n1" 5]⟩).cbs := by
  exact ⟨by decide, by decide, by decide⟩

/-- Claim C6 (amended): during live execution the start callback fires on the
first `progress` push matching this prompt id (not on an `executed` push);
each `executed` push naming a requested output records its value and
decrements the remaining count, and the count reaching zero completes the
run with the accumulated output map. -/
theorem c6_live_output_accumulation :
    (∀ (m : MapOut) (pid : String) (rest : List Ev),
        runWrapper ⟨m, some pid, [none],
            Ev.executing pid :: Ev.progress pid :: rest⟩
          = runLive m pid (reverseMapOutputKeys m) []
              ((reverseMapOutputKeys m).length : Int) true []
              [CB.pendingCb pid, CB.startCb pid, CB.progressCb pid] rest) ∧
    (∀ (m : MapOut) (pid nodeId key : String) (v : Nat) (rest : List Ev),
        (reverseMapOutputKeys m).lookup nodeId = some key →
        ((reverseMapOutputKeys m).length : Int) - 1 ≠ 0 →
        runWrapper ⟨m, some pid, [none],
            Ev.executing pid :: Ev.executed pid nodeId v :: rest⟩
          = runLive m pid (reverseMapOutputKeys m) []
              (((reverseMapOutputKeys m).length : Int) - 1) false [(key, v)]
              [CB.pendingCb pid, CB.outputCb key v] rest) ∧
    (∀ (m : MapOut) (pid nodeId key : String) (v : Nat) (rest : List Ev),
        (reverseMapOutputKeys m).lookup nodeId = some key →
        ((reverseMapOutputKeys m).length : Int) - 1 = 0 →
        runWrapper ⟨m, some pid, [none],
            Ev.executing pid :: Ev.executed pid nodeId v :: rest⟩
          = ⟨Outcome.completedMap [(key, some v)],
             [CB.pendingCb pid, CB.outputCb key v,
              CB.finishedCb [(key, some v)]]⟩) := by
  refine ⟨?_, ?_, ?_⟩
  · intro m pid rest
    simp [runWrapper, runLoading, afterLoad, runLive, handleCachedOutput, popHist]
  · intro m pid nodeId key v rest hk hrem
    simp [runWrapper, runLoading, afterLoad, runLive, handleCachedOutput,
      popHist, hk, hrem, assocSet]
  · intro m pid nodeId key v rest hk hrem
    simp [runWrapper, runLoading, afterLoad, runLive, handleCachedOutput,
      popHist, hk, hrem, assocSet]

/-- Witness for C6 (amended): completing a single-output job with one
executed push, and the progress-driven start callback. -/
theorem c6_live_output_accumulation_witness :
    runWrapper ⟨[("a", some "n1")], some "p", [none],
        Ev.executing "p" :: Ev.executed "p" "n1" 7 :: []⟩
      = ⟨Outcome.completedMap [("a", some 7)],
         [CB.pendingCb "p", CB.outputCb "a" 7, CB.finishedCb [("a", some 7)]]⟩
      ∧ runWrapper ⟨[("a", some "n1")], some "p", [none],
          Ev.executing "p" :: Ev.progress "p" :: []⟩
        = runLive [("a", some "n1")] "p"
            (reverseMapOutputKeys [("a", some "n1")]) []
            ((reverseMapOutputKeys [("a", some "n1")]).length : Int) true []
            [CB.pendingCb "p", CB.startCb "p", CB.progressCb "p"] [] :=
  ⟨c6_live_output_accumulation.2.2 [("a", some "n1")] "p" "n1" "a" 7 []
      (by decide) (by decide),
   c6_live_output_accumulation.1 [("a", some "n1")] "p" []⟩
